import Mathlib

/-!
Verification of the webilastik core against its natural-language specification.

The development shallowly embeds the Python source of the repository:
* `webilastik/features/feature_extractor.py`
* `webilastik/features/channelwise_fastfilters.py`
* `webilastik/annotations/annotation.py`
* `webilastik/utility/request.py`
* `webilastik/server/server.py`
* `benchmarks/pixel_classification_webilastik.py`

The coordinate/region model (`Point5D`, `Slice5D`/`Interval5D`, `DataRoi`,
splitting, enlargement, clamping) lives in the external `ndstructs` package;
those operations are modelled from the specification's description of the
coordinate and region model (spec section 4.1 and section 3), as noted on each
definition.  Opaque filter kernels (`fastfilters.*`) and the per-voxel uint8
conversion are abstracted exactly as the specification prescribes: as opaque
functions.
-/

/-- The five labeled axes `t, z, y, x, c` of the coordinate model. -/
inductive Axis : Type
  | t | z | y | x | c
deriving DecidableEq, Repr

/-- Modelled from the spec: "immutable 5-axis points" with signed-integer
components, labeled `t, z, y, x, c` (spec section 3, `Point5D` of ndstructs). -/
structure Point5D where
  t : Int
  z : Int
  y : Int
  x : Int
  c : Int
deriving DecidableEq, Repr

namespace Point5D

def add (a b : Point5D) : Point5D := ⟨a.t + b.t, a.z + b.z, a.y + b.y, a.x + b.x, a.c + b.c⟩

def sub (a b : Point5D) : Point5D := ⟨a.t - b.t, a.z - b.z, a.y - b.y, a.x - b.x, a.c - b.c⟩

instance : Add Point5D := ⟨add⟩
instance : Sub Point5D := ⟨sub⟩

/-- Componentwise maximum. -/
def cmax (a b : Point5D) : Point5D :=
  ⟨max a.t b.t, max a.z b.z, max a.y b.y, max a.x b.x, max a.c b.c⟩

/-- Componentwise minimum. -/
def cmin (a b : Point5D) : Point5D :=
  ⟨min a.t b.t, min a.z b.z, min a.y b.y, min a.x b.x, min a.c b.c⟩

/-- Modelled from the spec: "equality and ordering are component-wise"
(spec section 3). -/
def le (a b : Point5D) : Prop :=
  a.t ≤ b.t ∧ a.z ≤ b.z ∧ a.y ≤ b.y ∧ a.x ≤ b.x ∧ a.c ≤ b.c

instance : LE Point5D := ⟨le⟩

instance (a b : Point5D) : Decidable (a ≤ b) := by
  change Decidable (le a b); unfold le; infer_instance

/-- Scalar multiplication, as in the Python expression `self.halo * 2`. -/
def scale (a : Point5D) (k : Int) : Point5D := ⟨a.t * k, a.z * k, a.y * k, a.x * k, a.c * k⟩

/-- Componentwise floor division by 2, as in the Python `self.kernel_shape // 2`. -/
def halfFloor (a : Point5D) : Point5D :=
  ⟨Int.fdiv a.t 2, Int.fdiv a.z 2, Int.fdiv a.y 2, Int.fdiv a.x 2, Int.fdiv a.c 2⟩

/-- Component along one of the five labeled axes. -/
def get (p : Point5D) : Axis → Int
  | Axis.t => p.t
  | Axis.z => p.z
  | Axis.y => p.y
  | Axis.x => p.x
  | Axis.c => p.c

/-- The Python `p.updated(axis=v)` / `p.with_coord(axis=v)` for one axis. -/
def setAxis (p : Point5D) (a : Axis) (v : Int) : Point5D :=
  match a with
  | Axis.t => { p with t := v }
  | Axis.z => { p with z := v }
  | Axis.y => { p with y := v }
  | Axis.x => { p with x := v }
  | Axis.c => { p with c := v }

/-- The origin, `Point5D.zero()`. -/
def zero : Point5D := ⟨0, 0, 0, 0, 0⟩

/-- `Point5D.zero(c=v)`: zero on every axis except the channel axis. -/
def zeroWithC (v : Int) : Point5D := ⟨0, 0, 0, 0, v⟩

end Point5D

/-- Modelled from the spec: "a half-open axis-aligned box defined by `start` and
`stop` points" (spec section 3; `Slice5D`/`Interval5D` of ndstructs). -/
structure Interval5D where
  start : Point5D
  stop : Point5D
deriving DecidableEq, Repr

namespace Interval5D

/-- Invariant of the spec's region model: `shape = stop − start`. -/
def shape (i : Interval5D) : Point5D := i.stop - i.start

/-- Modelled from the spec: "`enlarge(region, margin)` (grows symmetrically by
margin per axis, no clamping)" (spec section 4.1). -/
def enlarge (i : Interval5D) (margin : Point5D) : Interval5D :=
  ⟨i.start - margin, i.stop + margin⟩

/-- Modelled from the spec: "`clamp(region, bounds)` (intersects with bounds)"
(spec section 4.1). -/
def clamp (i bounds : Interval5D) : Interval5D :=
  ⟨Point5D.cmax i.start bounds.start, Point5D.cmin i.stop bounds.stop⟩

/-- Modelled from the spec: region containment, `contains` (spec section 4.1);
the outer region contains the inner one iff it does so on every axis. -/
def containsIv (outer inner : Interval5D) : Prop :=
  outer.start ≤ inner.start ∧ inner.stop ≤ outer.stop

instance (a b : Interval5D) : Decidable (containsIv a b) := by
  unfold containsIv; infer_instance

/-- Membership of a single point in the half-open box. -/
def containsPt (i : Interval5D) (p : Point5D) : Prop :=
  (i.start.t ≤ p.t ∧ p.t < i.stop.t) ∧ (i.start.z ≤ p.z ∧ p.z < i.stop.z) ∧
  (i.start.y ≤ p.y ∧ p.y < i.stop.y) ∧ (i.start.x ≤ p.x ∧ p.x < i.stop.x) ∧
  (i.start.c ≤ p.c ∧ p.c < i.stop.c)

instance (i : Interval5D) (p : Point5D) : Decidable (containsPt i p) := by
  unfold containsPt; infer_instance

/-- The Python `region.translated(offset)`: shift both corners by `offset`. -/
def translated (i : Interval5D) (off : Point5D) : Interval5D :=
  ⟨i.start + off, i.stop + off⟩

/-- The Python `shape.to_slice_5d()`: the region from the origin to `s`. -/
def toSlice (s : Point5D) : Interval5D := ⟨Point5D.zero, s⟩

/-- Smallest region containing both arguments (`Slice5D.enclosing`). -/
def enclosing (a b : Interval5D) : Interval5D :=
  ⟨Point5D.cmin a.start b.start, Point5D.cmax a.stop b.stop⟩

end Interval5D

/-- Modelled from the spec: the tiles of one axis for `split` — consecutive
half-open intervals of length `step` starting at `s`, the last one clamped to
the region's `stop` ("tie-break on boundary tiles by clamping the last tile on
each axis to the input's `stop`", spec section 4.1). -/
def axisTiles (s e step : Int) : List (Int × Int) :=
  (List.range ((Int.fdiv (e - s + (step - 1)) step).toNat)).map
    (fun k : Nat => (s + step * (k : Int), min (s + step * ((k : Int) + 1)) e))

/-- Modelled from the spec: "`split(region, tile_shape) -> sequence of Region`
(a true partition ...)" (spec section 4.1).  Tiles are enumerated axis by axis
in the fixed `t, z, y, x, c` axis order. -/
def Interval5D.split (i : Interval5D) (step : Point5D) : List Interval5D :=
  (axisTiles i.start.t i.stop.t step.t).flatMap fun it =>
  (axisTiles i.start.z i.stop.z step.z).flatMap fun iz =>
  (axisTiles i.start.y i.stop.y step.y).flatMap fun iy =>
  (axisTiles i.start.x i.stop.x step.x).flatMap fun ix =>
  (axisTiles i.start.c i.stop.c step.c).map fun ic =>
    ⟨⟨it.1, iz.1, iy.1, ix.1, ic.1⟩, ⟨it.2, iz.2, iy.2, ix.2, ic.2⟩⟩

/-- Modelled from the spec: a region of a data source, carrying the data
source's own bounds ("clamp to the data source's bounds", spec section 4.3;
`DataSourceSlice`/`DataRoi` of ndstructs). -/
structure DataRoi where
  interval : Interval5D
  bounds : Interval5D
deriving DecidableEq, Repr

namespace DataRoi

/-- Modelled from the spec: enlarging a data-source region grows it
symmetrically by the margin and clamps the result to the data source's bounds
("enlarge its region by the extractor's halo ... and clamp to the data
source's bounds", spec section 4.3 step 2; `DataRoi.enlarged` of ndstructs). -/
def enlarged (r : DataRoi) (margin : Point5D) : DataRoi :=
  ⟨(r.interval.enlarge margin).clamp r.bounds, r.bounds⟩

/-- Splitting a data-source region produces data-source tiles over the same
bounds (ndstructs `DataRoi.split`, modelled from the spec's section 4.1). -/
def split (r : DataRoi) (step : Point5D) : List DataRoi :=
  (r.interval.split step).map (fun iv => ⟨iv, r.bounds⟩)

end DataRoi

/-- A typed block: "a rectangular block of scalar data anchored at a region"
(spec section 3).  The buffer is modelled as a total valuation of points; only
the values inside `roi` are meaningful. -/
structure Block (α : Type) where
  roi : Interval5D
  val : Point5D → α

namespace Block

/-- Writing a sub-block: the Python `out.cut(region)` view followed by a
mutating write of the whole view (painting the sub-region). -/
def paint (b : Block α) (region : Interval5D) (f : Point5D → α) : Block α :=
  ⟨b.roi, fun p => if region.containsPt p then f p else b.val p⟩

/-- `Array5D.set`: copy the values of `o` into `b` over `o`'s region. -/
def setBlock (b o : Block α) : Block α :=
  ⟨b.roi, fun p => if o.roi.containsPt p then o.val p else b.val p⟩

/-- `Array5D.combine`: allocate the enclosing region and set every block in
order (ndstructs; modelled from the spec's "Concatenate all sub-results ...
to rebuild the full output block", section 4.3 step 5). -/
def combine (b : Block α) (others : List (Block α)) : Block α :=
  others.foldl setBlock ⟨others.foldl (fun acc o => acc.enclosing o.roi) b.roi, b.val⟩

/-- `cut(region, c=All())`: restrict to `region` on all axes except the
channel axis, which is kept in full. -/
def cutAllC (b : Block α) (region : Interval5D) : Block α :=
  ⟨⟨(region.start.setAxis Axis.c b.roi.start.c), (region.stop.setAxis Axis.c b.roi.stop.c)⟩,
   b.val⟩

end Block

section SplitLemmas

/-- Membership in `axisTiles`, unfolded. -/
theorem mem_axisTiles {s e step : Int} {pr : Int × Int} :
    pr ∈ axisTiles s e step ↔
      ∃ k : Nat, k < (Int.fdiv (e - s + (step - 1)) step).toNat ∧
        pr = (s + step * (k : Int), min (s + step * ((k : Int) + 1)) e) := by
  simp only [axisTiles, List.mem_map, List.mem_range]
  constructor
  · rintro ⟨k, hk, rfl⟩; exact ⟨k, hk, rfl⟩
  · rintro ⟨k, hk, rfl⟩; exact ⟨k, hk, rfl⟩

/-- With unit step, every axis tile has extent exactly one. -/
theorem axisTiles_unit_extent {s e : Int} {pr : Int × Int}
    (h : pr ∈ axisTiles s e 1) : pr.2 - pr.1 = 1 := by
  rcases mem_axisTiles.mp h with ⟨k, hk, rfl⟩
  have h1 : Int.fdiv (e - s + (1 - 1)) 1 = e - s := by
    rw [Int.sub_self, Int.add_zero, Int.fdiv_one]
  rw [h1] at hk
  have hk2 : (k : Int) < e - s := by omega
  have hmin : min (s + 1 * ((k : Int) + 1)) e = s + 1 * ((k : Int) + 1) := by
    apply min_eq_left; omega
  simp only [hmin]; omega

/-- Membership in `Interval5D.split`, axis by axis. -/
theorem mem_split {i : Interval5D} {step : Point5D} {tile : Interval5D} :
    tile ∈ i.split step ↔
      (tile.start.t, tile.stop.t) ∈ axisTiles i.start.t i.stop.t step.t ∧
      (tile.start.z, tile.stop.z) ∈ axisTiles i.start.z i.stop.z step.z ∧
      (tile.start.y, tile.stop.y) ∈ axisTiles i.start.y i.stop.y step.y ∧
      (tile.start.x, tile.stop.x) ∈ axisTiles i.start.x i.stop.x step.x ∧
      (tile.start.c, tile.stop.c) ∈ axisTiles i.start.c i.stop.c step.c := by
  simp only [Interval5D.split, List.mem_flatMap, List.mem_map]
  constructor
  · rintro ⟨it, hit, iz, hiz, iy, hiy, ix, hix, ic, hic, rfl⟩
    exact ⟨hit, hiz, hiy, hix, hic⟩
  · rintro ⟨hit, hiz, hiy, hix, hic⟩
    exact ⟨_, hit, _, hiz, _, hiy, _, hix, _, hic, rfl⟩

end SplitLemmas

/-! ## Channel-wise fast filters (`webilastik/features/channelwise_fastfilters.py`) -/

/-- `ChannelwiseFastFilter` (channelwise_fastfilters.py, lines 35-129): a
feature extractor driving an opaque `fastfilters` kernel.  The opaque kernel
is the `filter_fn` field; `channel_multiplier` records how many channels the
kernel emits per input channel (derived in Python from the kernel output's
rank; a declared constant per filter subclass). -/
structure ChannelwiseFastFilter (α : Type) where
  preprocessor : DataRoi → Block α
  axis_2d : Option Axis
  presmooth_sigma : ℚ
  filter_fn : (Point5D → α) → (Point5D → α)
  channel_multiplier : Int

namespace ChannelwiseFastFilter

variable {α : Type}

/-- `ChannelwiseFastFilter.halo` (channelwise_fastfilters.py, lines 80-86):
a fixed margin of 30 on each spatial axis, 0 on the channel axis, and 0 on
the configured 2D axis if any.  (The `t` axis is left at zero.) -/
def halo (F : ChannelwiseFastFilter α) : Point5D :=
  let base : Point5D := ⟨0, 30, 30, 30, 0⟩
  match F.axis_2d with
  | none => base
  | some ax => base.setAxis ax 0

/-- `ChannelwiseFastFilter.is_applicable_to` (channelwise_fastfilters.py,
lines 88-89): `datasource.shape >= self.halo * 2`. -/
def is_applicable_to (F : ChannelwiseFastFilter α) (datasource_shape : Point5D) : Bool :=
  decide (F.halo.scale 2 ≤ datasource_shape)

/-- The per-sub-problem step of `compute` (channelwise_fastfilters.py, lines
93-95): the roi's shape with `c` and `t` set to 1, and the 2D axis set to 1
when configured. -/
def roiStep (F : ChannelwiseFastFilter α) (roi : DataRoi) : Point5D :=
  let s := (roi.interval.shape.setAxis Axis.c 1).setAxis Axis.t 1
  match F.axis_2d with
  | none => s
  | some ax => s.setAxis ax 1

/-- The Gaussian presmoothing sub-operator constructed inside `compute`
(channelwise_fastfilters.py, lines 102-104): a `GaussianSmoothing` over the
same preprocessor and 2D axis, with `sigma = presmooth_sigma`,
`window_size = 3.5` and no further presmoothing.  `gauss` is the opaque
`fastfilters.gaussianSmoothing` kernel family (sigma, window_size). -/
def gaussianOf (gauss : ℚ → ℚ → (Point5D → α) → Point5D → α)
    (F : ChannelwiseFastFilter α) : ChannelwiseFastFilter α :=
  { preprocessor := F.preprocessor
    axis_2d := F.axis_2d
    presmooth_sigma := 0
    filter_fn := gauss F.presmooth_sigma (7 / 2)
    channel_multiplier := 1 }

/-- The body of one iteration of the loop in `compute`
(channelwise_fastfilters.py, lines 98-126), with the source of raw data
(`preprocessor` or the presmoothing sub-operator) abstracted as `source`:
enlarge the sub-roi by the halo (ndstructs clamps to the data source's
bounds), fetch the source data there, run the kernel, wrap the kernel output
at the haloed location with the channel offset scaled by the channel
multiplier, and cut back to the sub-roi keeping all channels. -/
def computeSlicePiece (source : DataRoi → Block α) (F : ChannelwiseFastFilter α)
    (roi : DataRoi) (slc : DataRoi) : Block α :=
  let haloed_roi := slc.enlarged F.halo
  let source_data := source haloed_roi
  let raw_data : Point5D → α := fun q => source_data.val (haloed_roi.interval.start + q)
  let raw_feature_data := F.filter_fn raw_data
  let channel_offset := slc.interval.start.c - roi.interval.start.c
  let loc := haloed_roi.interval.start.setAxis Axis.c (channel_offset * F.channel_multiplier)
  let feature_data : Block α :=
    ⟨⟨loc, loc + (haloed_roi.interval.shape.setAxis Axis.c F.channel_multiplier)⟩,
     fun p => raw_feature_data (p - loc)⟩
  feature_data.cutAllC slc.interval

/-- The loop of `compute` over all sub-rois followed by
`per_channel_results[0].combine(per_channel_results[1:])`
(channelwise_fastfilters.py, lines 97-129). -/
def computeBody [Inhabited α] (source : DataRoi → Block α) (F : ChannelwiseFastFilter α)
    (roi : DataRoi) : Block α :=
  let per_channel_results := (roi.split (roiStep F roi)).map (computeSlicePiece source F roi)
  match per_channel_results with
  | [] => ⟨⟨Point5D.zero, Point5D.zero⟩, fun _ => default⟩
  | b :: rest => b.combine rest

/-- `compute` of a filter whose `presmooth_sigma` is not positive: the raw
data source is the preprocessor itself. -/
def computePlain [Inhabited α] (F : ChannelwiseFastFilter α) (roi : DataRoi) : Block α :=
  computeBody F.preprocessor F roi

/-- `ChannelwiseFastFilter.compute` (channelwise_fastfilters.py, lines
91-129): when `presmooth_sigma > 0` each sub-problem's raw data is replaced
by the output of the Gaussian presmoothing sub-operator (whose own
`presmooth_sigma` is 0, so its compute is `computePlain`); otherwise the
preprocessor's data is used directly. -/
def compute [Inhabited α] (gauss : ℚ → ℚ → (Point5D → α) → Point5D → α)
    (F : ChannelwiseFastFilter α) (roi : DataRoi) : Block α :=
  if 0 < F.presmooth_sigma then
    computeBody (computePlain (gaussianOf gauss F)) F roi
  else
    computePlain F roi

end ChannelwiseFastFilter

section C1Lemmas

variable {α : Type}

theorem Point5D.get_sub (a b : Point5D) (ax : Axis) :
    (a - b).get ax = a.get ax - b.get ax := by
  cases ax <;> rfl

/-- The step used by `compute` is 1 on the channel axis. -/
theorem roiStep_c (F : ChannelwiseFastFilter α) (roi : DataRoi) :
    (ChannelwiseFastFilter.roiStep F roi).c = 1 := by
  unfold ChannelwiseFastFilter.roiStep
  rcases F.axis_2d with _ | ax
  · rfl
  · cases ax <;> rfl

/-- The step used by `compute` is 1 on the time axis. -/
theorem roiStep_t (F : ChannelwiseFastFilter α) (roi : DataRoi) :
    (ChannelwiseFastFilter.roiStep F roi).t = 1 := by
  unfold ChannelwiseFastFilter.roiStep
  rcases F.axis_2d with _ | ax
  · rfl
  · cases ax <;> rfl

/-- The step used by `compute` is 1 on the configured 2D axis. -/
theorem roiStep_axis2d (F : ChannelwiseFastFilter α) (roi : DataRoi) (ax : Axis)
    (h : F.axis_2d = some ax) :
    (ChannelwiseFastFilter.roiStep F roi).get ax = 1 := by
  unfold ChannelwiseFastFilter.roiStep
  rw [h]
  cases ax <;> rfl

end C1Lemmas

/-- **C1.** In `ChannelwiseFastFilter.compute`, the region is decomposed into
per-channel/per-time(/per-2D-slice) sub-regions (each of extent 1 along the
channel axis, the time axis, and the configured 2D axis); every sub-region is
enlarged symmetrically by the extractor's halo and then clamped to the data
source's bounds; and the kernel input on that enlarged-and-clamped region is
the Gaussian presmoothing sub-operator's output when `presmooth_sigma > 0`,
the preprocessor's raw data otherwise. -/
theorem C1_compute_halo_clamp_presmooth {α : Type} [Inhabited α]
    (gauss : ℚ → ℚ → (Point5D → α) → Point5D → α)
    (F : ChannelwiseFastFilter α) (roi : DataRoi) :
    (ChannelwiseFastFilter.compute gauss F roi =
       ChannelwiseFastFilter.computeBody
         (if 0 < F.presmooth_sigma then
            ChannelwiseFastFilter.computePlain (ChannelwiseFastFilter.gaussianOf gauss F)
          else F.preprocessor)
         F roi) ∧
    ∀ slc ∈ roi.split (ChannelwiseFastFilter.roiStep F roi),
      slc.interval.shape.c = 1 ∧
      slc.interval.shape.t = 1 ∧
      (∀ ax, F.axis_2d = some ax → slc.interval.shape.get ax = 1) ∧
      (slc.enlarged F.halo).interval =
        (slc.interval.enlarge F.halo).clamp roi.bounds := by
  constructor
  · by_cases h : 0 < F.presmooth_sigma <;>
      simp [ChannelwiseFastFilter.compute, ChannelwiseFastFilter.computePlain, h]
  · intro slc hslc
    rcases List.mem_map.mp hslc with ⟨iv, hiv, rfl⟩
    have hax := mem_split.mp hiv
    refine ⟨?_, ?_, ?_, rfl⟩
    · have hc := hax.2.2.2.2
      rw [roiStep_c] at hc
      exact axisTiles_unit_extent hc
    · have ht := hax.1
      rw [roiStep_t] at ht
      exact axisTiles_unit_extent ht
    · intro ax h2d
      have hstep := roiStep_axis2d F roi ax h2d
      cases ax
      · have hs : (ChannelwiseFastFilter.roiStep F roi).t = 1 := hstep
        have h := hax.1; rw [hs] at h
        simpa [Interval5D.shape, Point5D.get_sub, Point5D.get] using axisTiles_unit_extent h
      · have hs : (ChannelwiseFastFilter.roiStep F roi).z = 1 := hstep
        have h := hax.2.1; rw [hs] at h
        simpa [Interval5D.shape, Point5D.get_sub, Point5D.get] using axisTiles_unit_extent h
      · have hs : (ChannelwiseFastFilter.roiStep F roi).y = 1 := hstep
        have h := hax.2.2.1; rw [hs] at h
        simpa [Interval5D.shape, Point5D.get_sub, Point5D.get] using axisTiles_unit_extent h
      · have hs : (ChannelwiseFastFilter.roiStep F roi).x = 1 := hstep
        have h := hax.2.2.2.1; rw [hs] at h
        simpa [Interval5D.shape, Point5D.get_sub, Point5D.get] using axisTiles_unit_extent h
      · have hs : (ChannelwiseFastFilter.roiStep F roi).c = 1 := hstep
        have h := hax.2.2.2.2; rw [hs] at h
        simpa [Interval5D.shape, Point5D.get_sub, Point5D.get] using axisTiles_unit_extent h

/-- A concrete trivial filter instance used to instantiate the abstract kernel
and preprocessor at concrete inputs. -/
def trivialFilter : ChannelwiseFastFilter Int :=
  { preprocessor := fun r => ⟨r.interval, fun _ => 0⟩
    axis_2d := none
    presmooth_sigma := 0
    filter_fn := id
    channel_multiplier := 1 }

/-- A concrete trivial Gaussian-smoothing kernel family. -/
def trivialGauss : ℚ → ℚ → (Point5D → Int) → Point5D → Int := fun _ _ f => f

/-- The one-voxel region at the origin over a one-voxel data source. -/
def unitRoi : DataRoi :=
  ⟨⟨⟨0, 0, 0, 0, 0⟩, ⟨1, 1, 1, 1, 1⟩⟩, ⟨⟨0, 0, 0, 0, 0⟩, ⟨1, 1, 1, 1, 1⟩⟩⟩

/-- Witness for C1 at the trivial filter and the one-voxel region. -/
theorem C1_compute_halo_clamp_presmooth_witness :
    unitRoi ∈ unitRoi.split (ChannelwiseFastFilter.roiStep trivialFilter unitRoi) ∧
      (unitRoi.interval.shape.c = 1 ∧
       unitRoi.interval.shape.t = 1 ∧
       (∀ ax, trivialFilter.axis_2d = some ax → unitRoi.interval.shape.get ax = 1) ∧
       (unitRoi.enlarged trivialFilter.halo).interval =
         (unitRoi.interval.enlarge trivialFilter.halo).clamp unitRoi.bounds) :=
  ⟨by decide,
   (C1_compute_halo_clamp_presmooth trivialGauss trivialFilter unitRoi).2 unitRoi (by decide)⟩

/-! ## The operator cache (`feature_extractor.py` line 46,
`channelwise_fastfilters.py` lines 18-23) -/

/-- `functools.lru_cache()` keeps at most 128 entries by default; both
`FeatureExtractor.compute` and (in the ImportError fallback)
`ChannelwiseFastFilter.compute` are decorated with it. -/
def lruCacheDefaultMaxsize : Nat := 128

/-- The memoization table of `functools.lru_cache`, most recent entry first. -/
structure LruCache (K V : Type) where
  entries : List (K × V)

/-- Cache lookup by key equality (Python keys compare by value). -/
def lruLookup [DecidableEq K] (st : LruCache K V) (k : K) : Option V :=
  (st.entries.find? (fun e => decide (e.1 = k))).map (fun e => e.2)

/-- One call through `functools.lru_cache(maxsize)`: on a hit return the
cached value and move the entry to the most-recent slot; on a miss invoke the
wrapped function, insert the result as most recent, and evict the least
recent entry beyond `maxsize`.  The boolean records whether the wrapped
function was invoked. -/
def lruCall [DecidableEq K] (f : K → V) (maxsize : Nat) (st : LruCache K V) (k : K) :
    V × LruCache K V × Bool :=
  match lruLookup st k with
  | some v => (v, ⟨(k, v) :: st.entries.filter (fun e => !decide (e.1 = k))⟩, false)
  | none => (f k, ⟨((k, f k) :: st.entries).take maxsize⟩, true)

/-- Run a sequence of calls through the cache, returning the outputs, the
final cache state, and the list of arguments the wrapped function was
actually invoked on (in order). -/
def lruRun [DecidableEq K] (f : K → V) (maxsize : Nat) :
    List K → LruCache K V → List V × LruCache K V × List K
  | [], st => ([], st, [])
  | k :: ks, st =>
    let r := lruCall f maxsize st k
    let rest := lruRun f maxsize ks r.2.1
    (r.1 :: rest.1, rest.2.1, (cond r.2.2 [k] []) ++ rest.2.2)

/-- The keys currently cached. -/
def keysOf (st : LruCache K V) : List K := st.entries.map Prod.fst

theorem lruLookup_eq_none_iff [DecidableEq K] (st : LruCache K V) (k : K) :
    lruLookup st k = none ↔ k ∉ keysOf st := by
  simp only [lruLookup, Option.map_eq_none', List.find?_eq_none, keysOf, List.mem_map,
    decide_eq_true_eq]
  aesop

theorem lruLookup_some [DecidableEq K] (st : LruCache K V) (k : K) (v : V)
    (h : lruLookup st k = some v) :
    ∃ e ∈ st.entries, e.1 = k ∧ e.2 = v := by
  simp only [lruLookup, Option.map_eq_some'] at h
  rcases h with ⟨e, he, rfl⟩
  exact ⟨e, List.mem_of_find?_eq_some he, by simpa using List.find?_some he, rfl⟩

/-- As long as the number of distinct requested keys does not exceed the
cache capacity, no entry is ever evicted: every call returns the direct
function value and the wrapped function runs at most once per key (the
invoked keys are pairwise distinct and none was cached at the start). -/
theorem lruRun_no_eviction [DecidableEq K] (f : K → V) (cap : Nat) :
    ∀ (calls : List K) (st : LruCache K V),
      (∀ e ∈ st.entries, e.2 = f e.1) →
      (calls.toFinset \ (keysOf st).toFinset).card + st.entries.length ≤ cap →
      (lruRun f cap calls st).1 = calls.map f ∧
      (lruRun f cap calls st).2.2.Nodup ∧
      (∀ j ∈ (lruRun f cap calls st).2.2, j ∉ keysOf st) := by
  intro calls
  induction calls with
  | nil =>
    intro st hval hcard
    simp [lruRun]
  | cons k ks ih =>
    intro st hval hcard
    by_cases hk : k ∈ keysOf st
    · -- cache hit
      obtain ⟨v, hv⟩ : ∃ v, lruLookup st k = some v := by
        rcases h : lruLookup st k with _ | v
        · exact absurd ((lruLookup_eq_none_iff st k).mp h) (by simpa using hk)
        · exact ⟨v, rfl⟩
      obtain ⟨e, he, hek, hev⟩ := lruLookup_some st k v hv
      have hvf : v = f k := by rw [← hev, hval e he, hek]
      set st2 : LruCache K V :=
        ⟨(k, v) :: st.entries.filter (fun e => !decide (e.1 = k))⟩ with hst2
      have hc : lruCall f cap st k = (v, st2, false) := by
        simp [lruCall, hv, hst2]
      have hval2 : ∀ e2 ∈ st2.entries, e2.2 = f e2.1 := by
        intro e2 he2
        rcases List.mem_cons.mp he2 with h1 | h1
        · subst h1; simpa using hvf
        · exact hval e2 (List.mem_of_mem_filter h1)
      have hkeys_sub : ∀ j ∈ keysOf st, j ∈ keysOf st2 := by
        intro j hj
        rcases List.mem_map.mp hj with ⟨e2, he2, rfl⟩
        by_cases hjk : e2.1 = k
        · rw [hjk]; exact List.mem_map.mpr ⟨(k, v), List.mem_cons_self _ _, rfl⟩
        · exact List.mem_map.mpr
            ⟨e2, List.mem_cons.mpr (Or.inr (List.mem_filter.mpr ⟨he2, by simpa using hjk⟩)),
             rfl⟩
      have hlen2 : st2.entries.length ≤ st.entries.length := by
        have hlt : (st.entries.filter (fun e => !decide (e.1 = k))).length <
            st.entries.length := by
          rw [List.length_filter_lt_length_iff_exists]
          exact ⟨e, he, by simpa using hek⟩
        simpa [hst2] using hlt
      have hcard2 : (ks.toFinset \ (keysOf st2).toFinset).card + st2.entries.length ≤ cap := by
        have hsub : ks.toFinset \ (keysOf st2).toFinset ⊆
            (k :: ks).toFinset \ (keysOf st).toFinset := by
          intro j hj
          rcases Finset.mem_sdiff.mp hj with ⟨hj1, hj2⟩
          refine Finset.mem_sdiff.mpr ⟨?_, ?_⟩
          · rw [List.mem_toFinset] at hj1 ⊢
            exact List.mem_cons.mpr (Or.inr hj1)
          · intro hcon
            exact hj2 (List.mem_toFinset.mpr (hkeys_sub j (List.mem_toFinset.mp hcon)))
        calc (ks.toFinset \ (keysOf st2).toFinset).card + st2.entries.length
            ≤ ((k :: ks).toFinset \ (keysOf st).toFinset).card + st.entries.length :=
              Nat.add_le_add (Finset.card_le_card hsub) hlen2
          _ ≤ cap := hcard
      have IH := ih st2 hval2 hcard2
      refine ⟨?_, ?_, ?_⟩
      · simp only [lruRun, hc, List.map_cons, cond_false, List.nil_append]
        rw [hvf, IH.1]
      · simp only [lruRun, hc, cond_false, List.nil_append]
        exact IH.2.1
      · simp only [lruRun, hc, cond_false, List.nil_append]
        intro j hj hcon
        exact IH.2.2 j hj (hkeys_sub j hcon)
    · -- cache miss
      have hv : lruLookup st k = none := (lruLookup_eq_none_iff st k).mpr hk
      have hkA : k ∈ (k :: ks).toFinset \ (keysOf st).toFinset :=
        Finset.mem_sdiff.mpr
          ⟨List.mem_toFinset.mpr (List.mem_cons_self _ _),
           fun hcon => hk (List.mem_toFinset.mp hcon)⟩
      have hcardA : 1 ≤ ((k :: ks).toFinset \ (keysOf st).toFinset).card :=
        Finset.card_pos.mpr ⟨k, hkA⟩
      have hlen1 : st.entries.length + 1 ≤ cap := by omega
      set st2 : LruCache K V := ⟨(k, f k) :: st.entries⟩ with hst2
      have htake : (((k, f k) :: st.entries).take cap) = st2.entries := by
        rw [hst2]
        exact List.take_of_length_le (by simpa using hlen1)
      have hc : lruCall f cap st k = (f k, st2, true) := by
        simp only [lruCall, hv]
        rw [htake]
      have hval2 : ∀ e2 ∈ st2.entries, e2.2 = f e2.1 := by
        intro e2 he2
        rcases List.mem_cons.mp he2 with h1 | h1
        · subst h1; rfl
        · exact hval e2 h1
      have hkeys2 : keysOf st2 = k :: keysOf st := by
        simp [keysOf, hst2]
      have hcard2 : (ks.toFinset \ (keysOf st2).toFinset).card + st2.entries.length ≤ cap := by
        have hsub : ks.toFinset \ (keysOf st2).toFinset ⊆
            ((k :: ks).toFinset \ (keysOf st).toFinset).erase k := by
          intro j hj
          rcases Finset.mem_sdiff.mp hj with ⟨hj1, hj2⟩
          rw [hkeys2] at hj2
          simp only [List.toFinset_cons, Finset.mem_insert, not_or] at hj2
          refine Finset.mem_erase.mpr ⟨hj2.1, Finset.mem_sdiff.mpr ⟨?_, ?_⟩⟩
          · rw [List.mem_toFinset] at hj1 ⊢
            exact List.mem_cons.mpr (Or.inr hj1)
          · intro hcon
            exact hj2.2 hcon
        have hc1 : (ks.toFinset \ (keysOf st2).toFinset).card ≤
            ((k :: ks).toFinset \ (keysOf st).toFinset).card - 1 := by
          calc (ks.toFinset \ (keysOf st2).toFinset).card
              ≤ (((k :: ks).toFinset \ (keysOf st).toFinset).erase k).card :=
                Finset.card_le_card hsub
            _ = ((k :: ks).toFinset \ (keysOf st).toFinset).card - 1 :=
                Finset.card_erase_of_mem hkA
        have hlen : st2.entries.length = st.entries.length + 1 := by simp [hst2]
        omega
      have IH := ih st2 hval2 hcard2
      refine ⟨?_, ?_, ?_⟩
      · simp only [lruRun, hc, List.map_cons, cond_true]
        rw [IH.1]
      · simp only [lruRun, hc, cond_true, List.singleton_append, List.nodup_cons]
        constructor
        · intro hcon
          have := IH.2.2 k hcon
          rw [hkeys2] at this
          exact this (List.mem_cons_self _ _)
        · exact IH.2.1
      · simp only [lruRun, hc, cond_true, List.singleton_append]
        intro j hj
        rcases List.mem_cons.mp hj with rfl | hj2
        · exact hk
        · intro hcon
          have := IH.2.2 j hj2
          rw [hkeys2] at this
          exact this (List.mem_cons.mpr (Or.inr hcon))

/-- The i-th member of a family of pairwise distinct one-voxel regions. -/
def c2Region (i : Nat) : DataRoi :=
  ⟨⟨⟨(i : Int), 0, 0, 0, 0⟩, ⟨(i : Int) + 1, 1, 1, 1, 1⟩⟩,
   ⟨⟨(i : Int), 0, 0, 0, 0⟩, ⟨(i : Int) + 1, 1, 1, 1, 1⟩⟩⟩

/-- 129 pairwise distinct regions followed by the first region again: one more
distinct region than `functools.lru_cache`'s default capacity of 128. -/
def c2Calls : List DataRoi := ((List.range 129).map c2Region) ++ [c2Region 0]

/-- Counterexample for C2: `compute` is cached through `functools.lru_cache()`
whose default capacity is 128 entries, so after 129 distinct regions the first
region has been evicted and calling it again invokes the underlying kernel a
second time — the kernel is *not* invoked at most once per distinct
(operator instance, region) pair. -/
theorem C2_counterexample :
    ((lruRun (ChannelwiseFastFilter.compute trivialGauss trivialFilter)
        lruCacheDefaultMaxsize c2Calls ⟨[]⟩).2.2.count (c2Region 0)) = 2 := by
  decide

/-- **C2 (amended).** For call sequences touching at most 128 distinct regions
(the default capacity of `functools.lru_cache`), the cached `compute` invokes
the underlying kernel at most once per distinct (operator instance, region)
pair, and every call — first or repeated — returns a block value-identical to
the direct recomputation. -/
theorem C2_cache_at_most_once_amended {α : Type} [Inhabited α]
    (gauss : ℚ → ℚ → (Point5D → α) → Point5D → α) (F : ChannelwiseFastFilter α)
    (calls : List DataRoi)
    (h : calls.toFinset.card ≤ lruCacheDefaultMaxsize) :
    (∀ r : DataRoi,
        ((lruRun (ChannelwiseFastFilter.compute gauss F) lruCacheDefaultMaxsize calls
            ⟨[]⟩).2.2.count r) ≤ 1) ∧
    (lruRun (ChannelwiseFastFilter.compute gauss F) lruCacheDefaultMaxsize calls ⟨[]⟩).1 =
      calls.map (ChannelwiseFastFilter.compute gauss F) := by
  have hmain := lruRun_no_eviction (ChannelwiseFastFilter.compute gauss F)
    lruCacheDefaultMaxsize calls ⟨[]⟩
    (by intro e he; exact absurd he (List.not_mem_nil e))
    (by simpa [keysOf] using h)
  constructor
  · intro r
    exact List.nodup_iff_count_le_one.mp hmain.2.1 r
  · exact hmain.1

/-- Witness for the amended C2 at a concrete repeated call. -/
theorem C2_cache_at_most_once_amended_witness :
    ([c2Region 0, c2Region 0] : List DataRoi).toFinset.card ≤ lruCacheDefaultMaxsize ∧
    ((∀ r : DataRoi,
        ((lruRun (ChannelwiseFastFilter.compute trivialGauss trivialFilter)
            lruCacheDefaultMaxsize [c2Region 0, c2Region 0] ⟨[]⟩).2.2.count r) ≤ 1) ∧
     (lruRun (ChannelwiseFastFilter.compute trivialGauss trivialFilter)
          lruCacheDefaultMaxsize [c2Region 0, c2Region 0] ⟨[]⟩).1 =
       [c2Region 0, c2Region 0].map
         (ChannelwiseFastFilter.compute trivialGauss trivialFilter)) :=
  ⟨by decide, C2_cache_at_most_once_amended trivialGauss trivialFilter _ (by decide)⟩

/-! ## Componentwise simp lemmas for the coordinate model -/

namespace Point5D

@[simp] theorem add_t (a b : Point5D) : (a + b).t = a.t + b.t := rfl

@[simp] theorem add_z (a b : Point5D) : (a + b).z = a.z + b.z := rfl

@[simp] theorem add_y (a b : Point5D) : (a + b).y = a.y + b.y := rfl

@[simp] theorem add_x (a b : Point5D) : (a + b).x = a.x + b.x := rfl

@[simp] theorem add_c (a b : Point5D) : (a + b).c = a.c + b.c := rfl

@[simp] theorem sub_t (a b : Point5D) : (a - b).t = a.t - b.t := rfl

@[simp] theorem sub_z (a b : Point5D) : (a - b).z = a.z - b.z := rfl

@[simp] theorem sub_y (a b : Point5D) : (a - b).y = a.y - b.y := rfl

@[simp] theorem sub_x (a b : Point5D) : (a - b).x = a.x - b.x := rfl

@[simp] theorem sub_c (a b : Point5D) : (a - b).c = a.c - b.c := rfl

@[simp] theorem zero_t : (zero).t = 0 := rfl

@[simp] theorem zero_z : (zero).z = 0 := rfl

@[simp] theorem zero_y : (zero).y = 0 := rfl

@[simp] theorem zero_x : (zero).x = 0 := rfl

@[simp] theorem zero_c : (zero).c = 0 := rfl

@[simp] theorem zeroWithC_t (v : Int) : (zeroWithC v).t = 0 := rfl

@[simp] theorem zeroWithC_z (v : Int) : (zeroWithC v).z = 0 := rfl

@[simp] theorem zeroWithC_y (v : Int) : (zeroWithC v).y = 0 := rfl

@[simp] theorem zeroWithC_x (v : Int) : (zeroWithC v).x = 0 := rfl

@[simp] theorem zeroWithC_c (v : Int) : (zeroWithC v).c = v := rfl

@[simp] theorem setAxisC_t (p : Point5D) (v : Int) : (p.setAxis Axis.c v).t = p.t := rfl

@[simp] theorem setAxisC_z (p : Point5D) (v : Int) : (p.setAxis Axis.c v).z = p.z := rfl

@[simp] theorem setAxisC_y (p : Point5D) (v : Int) : (p.setAxis Axis.c v).y = p.y := rfl

@[simp] theorem setAxisC_x (p : Point5D) (v : Int) : (p.setAxis Axis.c v).x = p.x := rfl

@[simp] theorem setAxisC_c (p : Point5D) (v : Int) : (p.setAxis Axis.c v).c = v := rfl

theorem ext_iff {a b : Point5D} :
    a = b ↔ a.t = b.t ∧ a.z = b.z ∧ a.y = b.y ∧ a.x = b.x ∧ a.c = b.c := by
  constructor
  · rintro rfl; exact ⟨rfl, rfl, rfl, rfl, rfl⟩
  · rintro ⟨h1, h2, h3, h4, h5⟩
    cases a; cases b; simp_all

end Point5D

/-- `Array5D.cut(region)`: a view of the same buffer restricted to `region`. -/
def Block.cut (b : Block α) (r : Interval5D) : Block α := ⟨r, b.val⟩

/-! ## The composite extractor (`feature_extractor.py`, lines 116-149) -/

/-- A channel-wise child extractor of a `FeatureExtractorCollection`
(feature_extractor.py, `ChannelwiseFilter`): it carries a channel multiplier
and an opaque kernel.  Children compute independently per channel/time/slice
and write translation-covariantly into whatever output view they are handed,
so the kernel is modelled as the value written at each point relative to the
start of the output view. -/
structure ChildExtractor (α : Type) where
  channel_multiplier : Int
  fn : DataRoi → Point5D → α

/-- `ChannelwiseFilter.get_expected_shape` (feature_extractor.py, lines
91-92): the input shape with the channel extent multiplied by the channel
multiplier. -/
def ChildExtractor.get_expected_shape (fx : ChildExtractor α) (input_shape : Point5D) :
    Point5D :=
  input_shape.setAxis Axis.c (input_shape.c * fx.channel_multiplier)

/-- A child's `compute_into(input_roi, out)`: fill the whole region of `out`
with kernel values taken relative to the start of `out`. -/
def ChildExtractor.compute_into (fx : ChildExtractor α) (input : DataRoi) (out : Block α) :
    Block α :=
  out.paint out.roi (fun p => fx.fn input (p - out.roi.start))

/-- The output region allocated by `FeatureExtractor.compute` for a solo run:
`allocate_for(input_roi.shape).translated(input_roi.start)`
(feature_extractor.py, lines 41-51). -/
def soloRoi (fx : ChildExtractor α) (input : DataRoi) : Interval5D :=
  (Interval5D.toSlice (fx.get_expected_shape input.interval.shape)).translated
    input.interval.start

/-- A child's solo `compute`: allocate the expected output at the input's
location and `compute_into` it. -/
def soloCompute (fx : ChildExtractor α) (input : DataRoi) (d : α) : Block α :=
  fx.compute_into input ⟨soloRoi fx input, fun _ => d⟩

/-- `FeatureExtractorCollection` (feature_extractor.py, lines 116-124): an
ordered tuple of child extractors. -/
structure FeatureExtractorCollection (α : Type) where
  extractors : List (ChildExtractor α)

/-- `FeatureExtractorCollection.get_expected_shape` (feature_extractor.py,
lines 133-135): the input shape with channel count the sum of the children's
expected channel counts. -/
def FeatureExtractorCollection.get_expected_shape (col : FeatureExtractorCollection α)
    (input_shape : Point5D) : Point5D :=
  input_shape.setAxis Axis.c
    ((col.extractors.map (fun fx => (fx.get_expected_shape input_shape).c)).sum)

/-- `FeatureExtractorCollection.compute_into` (feature_extractor.py, lines
141-149): starting from `offset = out.roi.start`, for each child in order cut
the output view `out_roi` (the child's expected shape translated to the
offset), let the child compute into that view, and advance the offset along
the channel axis by the view's channel extent. -/
def FeatureExtractorCollection.compute_into (col : FeatureExtractorCollection α)
    (input : DataRoi) (out : Block α) : Block α :=
  (col.extractors.foldl
    (fun (acc : Block α × Point5D) fx =>
      let out_roi :=
        (Interval5D.toSlice (fx.get_expected_shape input.interval.shape)).translated acc.2
      let out_array := fx.compute_into input (acc.1.cut out_roi)
      (acc.1.setBlock out_array, acc.2 + Point5D.zeroWithC out_roi.shape.c))
    (out, out.roi.start)).1

/-- The output block `FeatureExtractor.compute` would allocate for the
collection: the collection's expected shape anchored at the input's start. -/
def collectionAlloc (col : FeatureExtractorCollection α) (input : DataRoi) (d : α) :
    Block α :=
  ⟨(Interval5D.toSlice (col.get_expected_shape input.interval.shape)).translated
     input.interval.start,
   fun _ => d⟩

/-- **C3.** A `FeatureExtractorCollection`'s expected shape has channel count
the sum of its children's expected channel counts, and `compute_into` writes
each child in order into a contiguous channel sub-range at an advancing
offset: for a collection of two extractors with channel multipliers 1 and 3
over a 1-channel input, the output has 4 channels, the first channel slot
carries the first extractor's solo output and the next three carry the second
extractor's solo output (shifted by one channel). -/
theorem C3_collection_channel_bookkeeping {α : Type} (f1 f2 : ChildExtractor α)
    (input : DataRoi) (d : α)
    (h1 : f1.channel_multiplier = 1) (h3 : f2.channel_multiplier = 3)
    (hc : input.interval.shape.c = 1) :
    ((FeatureExtractorCollection.get_expected_shape ⟨[f1, f2]⟩ input.interval.shape).c =
       (f1.get_expected_shape input.interval.shape).c +
       (f2.get_expected_shape input.interval.shape).c) ∧
    ((FeatureExtractorCollection.get_expected_shape ⟨[f1, f2]⟩ input.interval.shape).c = 4) ∧
    (∀ p, (soloRoi f1 input).containsPt p →
      (FeatureExtractorCollection.compute_into ⟨[f1, f2]⟩ input
          (collectionAlloc ⟨[f1, f2]⟩ input d)).val p = (soloCompute f1 input d).val p) ∧
    (∀ p, ((soloRoi f2 input).translated (Point5D.zeroWithC 1)).containsPt p →
      (FeatureExtractorCollection.compute_into ⟨[f1, f2]⟩ input
          (collectionAlloc ⟨[f1, f2]⟩ input d)).val p =
        (soloCompute f2 input d).val (p - Point5D.zeroWithC 1)) := by
  have hcc : input.interval.stop.c - input.interval.start.c = 1 := by
    simpa [Interval5D.shape] using hc
  refine ⟨?_, ?_, ?_, ?_⟩
  · simp [FeatureExtractorCollection.get_expected_shape, ChildExtractor.get_expected_shape]
  · simp only [FeatureExtractorCollection.get_expected_shape,
      ChildExtractor.get_expected_shape, h1, h3, List.map_cons, List.map_nil,
      List.sum_cons, List.sum_nil, Point5D.setAxisC_c, Interval5D.shape, Point5D.sub_c]
    omega
  · intro p hp
    simp only [soloRoi, ChildExtractor.get_expected_shape, Interval5D.toSlice,
      Interval5D.translated, Interval5D.containsPt, Point5D.add_t, Point5D.add_z,
      Point5D.add_y, Point5D.add_x, Point5D.add_c, Point5D.zero_t, Point5D.zero_z,
      Point5D.zero_y, Point5D.zero_x, Point5D.zero_c, Point5D.setAxisC_t,
      Point5D.setAxisC_z, Point5D.setAxisC_y, Point5D.setAxisC_x, Point5D.setAxisC_c,
      h1, Interval5D.shape, Point5D.sub_t, Point5D.sub_z, Point5D.sub_y, Point5D.sub_x,
      Point5D.sub_c] at hp
    simp only [FeatureExtractorCollection.compute_into, List.foldl_cons, List.foldl_nil,
      collectionAlloc, FeatureExtractorCollection.get_expected_shape,
      ChildExtractor.compute_into, ChildExtractor.get_expected_shape, Block.cut,
      Block.paint, Block.setBlock, soloCompute, soloRoi, Interval5D.translated,
      Interval5D.toSlice, Interval5D.containsPt, Interval5D.shape, h1, h3,
      List.map_cons, List.map_nil, List.sum_cons, List.sum_nil,
      Point5D.add_t, Point5D.add_z, Point5D.add_y, Point5D.add_x, Point5D.add_c,
      Point5D.sub_t, Point5D.sub_z, Point5D.sub_y, Point5D.sub_x, Point5D.sub_c,
      Point5D.zero_t, Point5D.zero_z, Point5D.zero_y, Point5D.zero_x, Point5D.zero_c,
      Point5D.zeroWithC_t, Point5D.zeroWithC_z, Point5D.zeroWithC_y, Point5D.zeroWithC_x,
      Point5D.zeroWithC_c, Point5D.setAxisC_t, Point5D.setAxisC_z, Point5D.setAxisC_y,
      Point5D.setAxisC_x, Point5D.setAxisC_c]
    split_ifs <;>
      first
        | rfl
        | (exfalso; omega)
        | (congr 1; rw [Point5D.ext_iff]
           refine ⟨?_, ?_, ?_, ?_, ?_⟩ <;>
             (simp only [Point5D.sub_t, Point5D.sub_z, Point5D.sub_y, Point5D.sub_x,
                Point5D.sub_c, Point5D.add_t, Point5D.add_z, Point5D.add_y, Point5D.add_x,
                Point5D.add_c, Point5D.zero_t, Point5D.zero_z, Point5D.zero_y,
                Point5D.zero_x, Point5D.zero_c, Point5D.zeroWithC_t, Point5D.zeroWithC_z,
                Point5D.zeroWithC_y, Point5D.zeroWithC_x, Point5D.zeroWithC_c]
              omega))
  · intro p hp
    simp only [soloRoi, ChildExtractor.get_expected_shape, Interval5D.toSlice,
      Interval5D.translated, Interval5D.containsPt, Point5D.add_t, Point5D.add_z,
      Point5D.add_y, Point5D.add_x, Point5D.add_c, Point5D.zero_t, Point5D.zero_z,
      Point5D.zero_y, Point5D.zero_x, Point5D.zero_c, Point5D.setAxisC_t,
      Point5D.setAxisC_z, Point5D.setAxisC_y, Point5D.setAxisC_x, Point5D.setAxisC_c,
      Point5D.zeroWithC_t, Point5D.zeroWithC_z, Point5D.zeroWithC_y, Point5D.zeroWithC_x,
      Point5D.zeroWithC_c, h3, Interval5D.shape, Point5D.sub_t, Point5D.sub_z,
      Point5D.sub_y, Point5D.sub_x, Point5D.sub_c] at hp
    simp only [FeatureExtractorCollection.compute_into, List.foldl_cons, List.foldl_nil,
      collectionAlloc, FeatureExtractorCollection.get_expected_shape,
      ChildExtractor.compute_into, ChildExtractor.get_expected_shape, Block.cut,
      Block.paint, Block.setBlock, soloCompute, soloRoi, Interval5D.translated,
      Interval5D.toSlice, Interval5D.containsPt, Interval5D.shape, h1, h3,
      List.map_cons, List.map_nil, List.sum_cons, List.sum_nil,
      Point5D.add_t, Point5D.add_z, Point5D.add_y, Point5D.add_x, Point5D.add_c,
      Point5D.sub_t, Point5D.sub_z, Point5D.sub_y, Point5D.sub_x, Point5D.sub_c,
      Point5D.zero_t, Point5D.zero_z, Point5D.zero_y, Point5D.zero_x, Point5D.zero_c,
      Point5D.zeroWithC_t, Point5D.zeroWithC_z, Point5D.zeroWithC_y, Point5D.zeroWithC_x,
      Point5D.zeroWithC_c, Point5D.setAxisC_t, Point5D.setAxisC_z, Point5D.setAxisC_y,
      Point5D.setAxisC_x, Point5D.setAxisC_c]
    split_ifs <;>
      first
        | rfl
        | (exfalso; omega)
        | (congr 1; rw [Point5D.ext_iff]
           refine ⟨?_, ?_, ?_, ?_, ?_⟩ <;>
             (simp only [Point5D.sub_t, Point5D.sub_z, Point5D.sub_y, Point5D.sub_x,
                Point5D.sub_c, Point5D.add_t, Point5D.add_z, Point5D.add_y, Point5D.add_x,
                Point5D.add_c, Point5D.zero_t, Point5D.zero_z, Point5D.zero_y,
                Point5D.zero_x, Point5D.zero_c, Point5D.zeroWithC_t, Point5D.zeroWithC_z,
                Point5D.zeroWithC_y, Point5D.zeroWithC_x, Point5D.zeroWithC_c]
              omega))

/-- Concrete children for the composite-extractor witness. -/
def c3F1 : ChildExtractor Int := ⟨1, fun _ _ => 0⟩

/-- Concrete children for the composite-extractor witness. -/
def c3F2 : ChildExtractor Int := ⟨3, fun _ _ => 1⟩

/-- Witness for C3 at two concrete extractors over the one-voxel 1-channel
input. -/
theorem C3_collection_channel_bookkeeping_witness :
    (c3F1.channel_multiplier = 1 ∧ c3F2.channel_multiplier = 3 ∧
     unitRoi.interval.shape.c = 1) ∧
    (((FeatureExtractorCollection.get_expected_shape ⟨[c3F1, c3F2]⟩
         unitRoi.interval.shape).c =
       (c3F1.get_expected_shape unitRoi.interval.shape).c +
       (c3F2.get_expected_shape unitRoi.interval.shape).c) ∧
     ((FeatureExtractorCollection.get_expected_shape ⟨[c3F1, c3F2]⟩
         unitRoi.interval.shape).c = 4) ∧
     (∀ p, (soloRoi c3F1 unitRoi).containsPt p →
       (FeatureExtractorCollection.compute_into ⟨[c3F1, c3F2]⟩ unitRoi
           (collectionAlloc ⟨[c3F1, c3F2]⟩ unitRoi 0)).val p =
         (soloCompute c3F1 unitRoi 0).val p) ∧
     (∀ p, ((soloRoi c3F2 unitRoi).translated (Point5D.zeroWithC 1)).containsPt p →
       (FeatureExtractorCollection.compute_into ⟨[c3F1, c3F2]⟩ unitRoi
           (collectionAlloc ⟨[c3F1, c3F2]⟩ unitRoi 0)).val p =
         (soloCompute c3F2 unitRoi 0).val (p - Point5D.zeroWithC 1))) :=
  ⟨⟨rfl, rfl, by decide⟩,
   C3_collection_channel_bookkeeping c3F1 c3F2 unitRoi 0 rfl rfl (by decide)⟩

/-! ## Applicability (`feature_extractor.py`, lines 23-89) -/

/-- A data source: only its region matters here; the Python
`DataSource.shape` is the region's shape. -/
structure DataSource where
  roi : Interval5D
deriving DecidableEq, Repr

/-- `DataSource.shape`. -/
def DataSource.shape (ds : DataSource) : Point5D := ds.roi.shape

/-- The abstract `FeatureExtractor` base (feature_extractor.py, lines 28-71):
it exposes an abstract `kernel_shape`. -/
structure FeatureExtractor where
  kernel_shape : Point5D

/-- `FeatureDataMismatchException` (feature_extractor.py, lines 23-25). -/
structure FeatureDataMismatchException where
  feature_extractor : FeatureExtractor
  data_source : DataSource

/-- `FeatureExtractor.is_applicable_to` (feature_extractor.py, lines 57-58):
`datasource.shape >= self.kernel_shape` (componentwise ordering of the
ndstructs shape type, modelled from spec section 3). -/
def FeatureExtractor.is_applicable_to (fe : FeatureExtractor) (ds : DataSource) : Bool :=
  decide (fe.kernel_shape ≤ ds.shape)

/-- `FeatureExtractor.ensure_applicable` (feature_extractor.py, lines 60-62):
raise `FeatureDataMismatchException` iff not applicable, before any
computation happens. -/
def FeatureExtractor.ensure_applicable (fe : FeatureExtractor) (ds : DataSource) :
    Except FeatureDataMismatchException Unit :=
  if fe.is_applicable_to ds then Except.ok () else Except.error ⟨fe, ds⟩

/-- `FeatureExtractor.halo` (feature_extractor.py, lines 69-71):
`kernel_shape // 2`. -/
def FeatureExtractor.halo (fe : FeatureExtractor) : Point5D := fe.kernel_shape.halfFloor

/-- `ChannelwiseFilter` (feature_extractor.py, lines 74-89): a channel
specific extractor with a declared number of input channels. -/
structure ChannelwiseFilter where
  kernel_shape : Point5D
  num_input_channels : Int

/-- `ChannelwiseFilter.is_applicable_to` (feature_extractor.py, lines 83-84):
`datasource.shape >= self.kernel_shape and datasource.shape.c ==
self.num_input_channels`. -/
def ChannelwiseFilter.is_applicable_to (cw : ChannelwiseFilter) (ds : DataSource) : Bool :=
  decide (cw.kernel_shape ≤ ds.shape) && decide (ds.shape.c = cw.num_input_channels)

/-- Componentwise order: failing it means being strictly smaller on some
axis. -/
theorem Point5D.not_le_iff_exists {a b : Point5D} :
    ¬(a ≤ b) ↔ ∃ ax, b.get ax < a.get ax := by
  constructor
  · intro h
    by_contra hcon
    push_neg at hcon
    exact h ⟨hcon Axis.t, hcon Axis.z, hcon Axis.y, hcon Axis.x, hcon Axis.c⟩
  · rintro ⟨ax, hax⟩ hle
    rcases hle with ⟨h1, h2, h3, h4, h5⟩
    cases ax
    · exact absurd h1 (not_le.mpr hax)
    · exact absurd h2 (not_le.mpr hax)
    · exact absurd h3 (not_le.mpr hax)
    · exact absurd h4 (not_le.mpr hax)
    · exact absurd h5 (not_le.mpr hax)

/-- **C4.** An extractor reports inapplicable exactly when the source's shape
is smaller than the kernel requirement on some axis (for channel-specific
extractors, also when the channel count differs from the declared input
channel count; for the fast filters the kernel requirement is `halo * 2`);
`ensure_applicable` returns the mismatch error exactly in the inapplicable
case and succeeds otherwise; and a 7×7-kernel extractor is inapplicable to a
5×5 source. -/
theorem C4_applicability_gate :
    (∀ (fe : FeatureExtractor) (ds : DataSource),
       fe.is_applicable_to ds = false ↔
         ∃ ax, ds.shape.get ax < fe.kernel_shape.get ax) ∧
    (∀ (cw : ChannelwiseFilter) (ds : DataSource),
       cw.is_applicable_to ds = false ↔
         ((∃ ax, ds.shape.get ax < cw.kernel_shape.get ax) ∨
          ds.shape.c ≠ cw.num_input_channels)) ∧
    (∀ (F : ChannelwiseFastFilter Int) (ds : DataSource),
       F.is_applicable_to ds.shape = false ↔
         ∃ ax, ds.shape.get ax < (F.halo.scale 2).get ax) ∧
    (∀ (fe : FeatureExtractor) (ds : DataSource),
       (fe.ensure_applicable ds = Except.error ⟨fe, ds⟩ ↔ fe.is_applicable_to ds = false) ∧
       (fe.ensure_applicable ds = Except.ok () ↔ fe.is_applicable_to ds = true)) ∧
    (FeatureExtractor.is_applicable_to ⟨⟨1, 1, 7, 7, 1⟩⟩
       ⟨⟨Point5D.zero, ⟨1, 1, 5, 5, 1⟩⟩⟩ = false) := by
  refine ⟨?_, ?_, ?_, ?_, by decide⟩
  · intro fe ds
    rw [FeatureExtractor.is_applicable_to, decide_eq_false_iff_not, Point5D.not_le_iff_exists]
  · intro cw ds
    rw [ChannelwiseFilter.is_applicable_to, Bool.and_eq_false_iff]
    rw [decide_eq_false_iff_not, decide_eq_false_iff_not, Point5D.not_le_iff_exists]
  · intro F ds
    rw [ChannelwiseFastFilter.is_applicable_to, decide_eq_false_iff_not,
      Point5D.not_le_iff_exists]
  · intro fe ds
    constructor
    · cases h : fe.is_applicable_to ds <;>
        simp [FeatureExtractor.ensure_applicable, h]
    · cases h : fe.is_applicable_to ds <;>
        simp [FeatureExtractor.ensure_applicable, h]

/-! ## Annotations (`webilastik/annotations/annotation.py`) -/

/-- `Color` (annotation.py, lines 18-65): an RGBA color with uint8 channels
(values in 0..255; the display name plays no role here). -/
structure Color where
  r : Nat
  g : Nat
  b : Nat
  a : Nat
deriving DecidableEq, Repr

/-- `Color.q_rgba` (annotation.py, lines 45-47):
`sum(c * (16 ** (3 - idx)) for idx, c in enumerate(self.rgba))`. -/
def Color.q_rgba (col : Color) : Nat :=
  col.r * 16 ^ 3 + col.g * 16 ^ 2 + col.b * 16 ^ 1 + col.a * 16 ^ 0

/-- The sorting key relation of `Color.sort`: ascending `q_rgba`. -/
def qLe (c1 c2 : Color) : Prop := c1.q_rgba ≤ c2.q_rgba

instance : DecidableRel qLe := fun c1 c2 => by unfold qLe; infer_instance

instance : IsTotal Color qLe := ⟨fun c1 c2 => Nat.le_total c1.q_rgba c2.q_rgba⟩

instance : IsTrans Color qLe := ⟨fun _ _ _ h1 h2 => Nat.le_trans h1 h2⟩

/-- `Color.sort` (annotation.py, lines 59-61): stable sort by `q_rgba`
(the Python `sorted` is a stable sort; insertion sort realizes it). -/
def Color.sort (colors : List Color) : List Color := List.insertionSort qLe colors

/-- `Color.create_color_map` (annotation.py, lines 63-65):
`{color: np.uint8(idx + 1) for idx, color in enumerate(cls.sort(set(colors)))}`.
The Python `set` deduplicates by value; `np.uint8` wraps modulo 256. -/
def Color.create_color_map (colors : List Color) : List (Color × Nat) :=
  ((Color.sort colors.dedup).enum).map (fun pr => (pr.2, (pr.1 + 1) % 256))

/-- `AnnotationOutOfBounds` (annotation.py, lines 85-88). -/
structure AnnotationOutOfBounds where
  annotation_roi : Interval5D
  raw_data : DataSource
deriving DecidableEq, Repr

/-- `Annotation` (annotation.py, lines 90-108): a boolean scribble mask
anchored at a region, a color tag, and the raw data source it was drawn on. -/
structure Annot where
  roi : Interval5D
  mask : Point5D → Bool
  color : Color
  raw_data : DataSource

/-- `Annotation.__init__` (annotation.py, lines 101-108): raise
`AnnotationOutOfBounds` when the raw data's region does not contain the
annotation's region, before anything else is computed. -/
def Annot.construct (maskBlock : Block Bool) (color : Color) (raw_data : DataSource) :
    Except AnnotationOutOfBounds Annot :=
  if raw_data.roi.containsIv maskBlock.roi then
    Except.ok ⟨maskBlock.roi, maskBlock.val, color, raw_data⟩
  else
    Except.error ⟨maskBlock.roi, raw_data⟩

/-- The points of a region, enumerated through the unit-step split. -/
def pointsOf (i : Interval5D) : List Point5D :=
  (i.split ⟨1, 1, 1, 1, 1⟩).map (fun tile => tile.start)

/-- `self._data.tobytes()`: the mask buffer serialized point by point. -/
def Annot.maskBytes (an : Annot) : List Bool :=
  (pointsOf an.roi).map an.mask

/-- `Annotation.__hash__` (annotation.py, lines 93-94):
`hash((self._data.tobytes(), self.color))`, for an opaque Python hash
function `h`. -/
def Annot.pyHash (h : List Bool × Color → Nat) (an : Annot) : Nat :=
  h (an.maskBytes, an.color)

/-- The dynamic right operand of `Annotation.__eq__`: either another
`Annotation`, or a foreign object of which only the two comparisons made by
the fallback branch matter. -/
inductive PyOperand : Type
  | ann (an : Annot)
  | foreign (colorEq dataEq : Bool)

/-- `Annotation.__eq__` (annotation.py, lines 96-99): if the other operand is
an `Annotation`, return `False`; otherwise
`self.color == other.color and np.all(self._data == other._data)`. -/
def Annot.pyEq (_self : Annot) (other : PyOperand) : Bool :=
  match other with
  | PyOperand.ann _ => false
  | PyOperand.foreign colorEq dataEq => colorEq && dataEq

/-- **C6.** Constructing an `Annotation` whose region is not contained in the
raw data's region fails with `AnnotationOutOfBounds` (and nothing else is
computed first); consequently every successfully constructed annotation has
its roi contained in its raw data's roi. -/
theorem C6_annotation_out_of_bounds :
    (∀ (mb : Block Bool) (color : Color) (rd : DataSource),
       Annot.construct mb color rd = Except.error ⟨mb.roi, rd⟩ ↔
         ¬ rd.roi.containsIv mb.roi) ∧
    (∀ (mb : Block Bool) (color : Color) (rd : DataSource) (an : Annot),
       Annot.construct mb color rd = Except.ok an →
         rd.roi.containsIv an.roi ∧ an.raw_data = rd) := by
  constructor
  · intro mb color rd
    by_cases h : rd.roi.containsIv mb.roi <;> simp [Annot.construct, h]
  · intro mb color rd an
    by_cases h : rd.roi.containsIv mb.roi <;> simp [Annot.construct, h]
    rintro rfl
    exact ⟨h, rfl⟩

/-- Witness for C6: a successful construction over the one-voxel source. -/
theorem C6_annotation_out_of_bounds_witness :
    Annot.construct ⟨⟨Point5D.zero, ⟨1, 1, 1, 1, 1⟩⟩, fun _ => true⟩ ⟨0, 0, 0, 255⟩
        ⟨⟨Point5D.zero, ⟨1, 1, 1, 1, 1⟩⟩⟩ =
      Except.ok ⟨⟨Point5D.zero, ⟨1, 1, 1, 1, 1⟩⟩, fun _ => true, ⟨0, 0, 0, 255⟩,
        ⟨⟨Point5D.zero, ⟨1, 1, 1, 1, 1⟩⟩⟩⟩ ∧
    (⟨⟨Point5D.zero, ⟨1, 1, 1, 1, 1⟩⟩⟩ : DataSource).roi.containsIv
      (⟨Point5D.zero, ⟨1, 1, 1, 1, 1⟩⟩ : Interval5D) :=
  ⟨rfl,
   ((C6_annotation_out_of_bounds.2 ⟨⟨Point5D.zero, ⟨1, 1, 1, 1, 1⟩⟩, fun _ => true⟩
      ⟨0, 0, 0, 255⟩ ⟨⟨Point5D.zero, ⟨1, 1, 1, 1, 1⟩⟩⟩ _ rfl).1)⟩

/-- **C8.** `Annotation.__eq__` returns `False` whenever the other operand is
an `Annotation` — including the annotation itself, so equality is never
reflexive — while `Annotation.__hash__` is a value hash of the mask bytes and
the color (equal mask bytes and color give equal hashes). -/
theorem C8_annotation_eq_never_reflexive :
    (∀ (a b : Annot), a.pyEq (PyOperand.ann b) = false) ∧
    (∀ a : Annot, a.pyEq (PyOperand.ann a) = false) ∧
    (∀ (h : List Bool × Color → Nat) (a b : Annot),
       a.maskBytes = b.maskBytes → a.color = b.color → a.pyHash h = b.pyHash h) := by
  refine ⟨fun a b => rfl, fun a => rfl, ?_⟩
  intro h a b hm hc
  simp [Annot.pyHash, hm, hc]

/-- A concrete annotation for the C8 witness. -/
def c8Annot : Annot :=
  ⟨⟨Point5D.zero, ⟨1, 1, 1, 1, 1⟩⟩, fun _ => true, ⟨0, 0, 0, 255⟩,
   ⟨⟨Point5D.zero, ⟨1, 1, 1, 1, 1⟩⟩⟩⟩

/-- Witness for C8 at a concrete annotation compared with itself. -/
theorem C8_annotation_eq_never_reflexive_witness :
    c8Annot.pyEq (PyOperand.ann c8Annot) = false ∧
    (c8Annot.maskBytes = c8Annot.maskBytes ∧
     c8Annot.color = c8Annot.color ∧
     c8Annot.pyHash (fun _ => 0) = c8Annot.pyHash (fun _ => 0)) :=
  ⟨C8_annotation_eq_never_reflexive.2.1 c8Annot,
   rfl, rfl,
   C8_annotation_eq_never_reflexive.2.2 (fun _ => 0) c8Annot c8Annot rfl rfl⟩

/-- `Annotation.colored(value)` (annotation.py, lines 171-172): the boolean
mask scaled by the label value — `value` where the mask is set, 0 elsewhere
(and outside the annotation's region). -/
def Annot.colored (an : Annot) (v : Nat) : Point5D → Nat :=
  fun p => if an.roi.containsPt p ∧ an.mask p = true then v else 0

/-- Python dict lookup in a color map (0 for a missing color; the maps built
by `create_color_map` contain every annotation color in `merge`). -/
def lookupColor (m : List (Color × Nat)) (col : Color) : Nat :=
  ((m.find? (fun pr => decide (pr.1 = col))).map (fun pr => pr.2)).getD 0

/-- `Annotation.merge` (annotation.py, lines 174-181): allocate the enclosing
region filled with 0, then `out.set(annot.colored(color_map[annot.color]),
mask_value=0)` for each annotation in order — only positions whose colored
value is nonzero are overwritten. -/
def Annot.merge (annotations : List Annot) (color_map : List (Color × Nat)) :
    Point5D → Nat :=
  fun p =>
    annotations.foldl
      (fun acc an =>
        if Annot.colored an (lookupColor color_map an.color) p ≠ 0 then
          Annot.colored an (lookupColor color_map an.color) p
        else acc)
      0

/-- 256 pairwise distinct colors. -/
def c9Colors : List Color := (List.range 256).map (fun i => ⟨0, 0, 0, i⟩)

set_option maxRecDepth 8192 in
/-- Counterexample for C9: with 256 distinct input colors, `np.uint8(idx + 1)`
wraps around for the 256th color, so the color `(0,0,0,255)` is assigned the
label 0 — label 0 is *not* reserved for background in that case. -/
theorem C9_counterexample :
    ((⟨0, 0, 0, 255⟩ : Color), 0) ∈ Color.create_color_map c9Colors := by
  decide

/-- **C9 (amended).** For at most 255 distinct input colors,
`Color.create_color_map` assigns to every distinct input color a label, all
labels lie in 1..255 (so label 0 is never assigned and stays available as the
background value), the labels are pairwise distinct, the map enumerates
colors in ascending `q_rgba` order, and `Annotation.merge` leaves voxels
covered by no annotation mask at the background value 0.  (With 256 distinct
colors the uint8 label of the last color wraps to 0 — the counterexample.) -/
theorem C9_color_map_amended (colors : List Color)
    (h : colors.dedup.length ≤ 255) :
    (∀ col ∈ colors, ∃ v, (col, v) ∈ Color.create_color_map colors) ∧
    (∀ pr ∈ Color.create_color_map colors, 1 ≤ pr.2 ∧ pr.2 ≤ 255) ∧
    ((Color.create_color_map colors).map (fun pr => pr.2)).Nodup ∧
    ((Color.create_color_map colors).map (fun pr => pr.1)).Sorted qLe ∧
    (∀ (annotations : List Annot) (p : Point5D),
       (∀ an ∈ annotations, ¬(an.roi.containsPt p ∧ an.mask p = true)) →
       Annot.merge annotations (Color.create_color_map colors) p = 0) := by
  have hL : (Color.sort colors.dedup).length = colors.dedup.length :=
    (List.perm_insertionSort qLe colors.dedup).length_eq
  have hlen : (Color.sort colors.dedup).length ≤ 255 := by omega
  refine ⟨?_, ?_, ?_, ?_, ?_⟩
  · intro col hcol
    have h1 : col ∈ Color.sort colors.dedup :=
      (List.perm_insertionSort qLe colors.dedup).mem_iff.mpr (List.mem_dedup.mpr hcol)
    obtain ⟨i, hi, hget⟩ := List.mem_iff_getElem.mp h1
    refine ⟨(i + 1) % 256, List.mem_map.mpr ⟨(i, col), ?_, rfl⟩⟩
    exact List.mk_mem_enum_iff_getElem?.mpr (by simp [List.getElem?_eq_getElem hi, hget])
  · intro pr hpr
    rcases List.mem_map.mp hpr with ⟨q, hq, rfl⟩
    have hq2 := List.mem_enum_iff_getElem?.mp hq
    have hqlt : q.1 < (Color.sort colors.dedup).length :=
      List.getElem?_eq_some_iff.mp hq2 |>.choose
    have hle : q.1 + 1 < 256 := by omega
    simp only [Nat.mod_eq_of_lt hle]
    omega
  · have hrw : (Color.create_color_map colors).map (fun pr => pr.2) =
        (List.range (Color.sort colors.dedup).length).map (fun i => (i + 1) % 256) := by
      rw [Color.create_color_map, List.map_map, List.enum_eq_zip_range]
      have hcomp :
          ((fun pr : Color × Nat => pr.2) ∘ fun pr : Nat × Color => (pr.2, (pr.1 + 1) % 256)) =
            (fun i : Nat => (i + 1) % 256) ∘ Prod.fst := rfl
      rw [hcomp, ← List.map_map]
      rw [List.map_fst_zip _ _ (by simp)]
    rw [hrw]
    refine List.Nodup.map_on ?_ (List.nodup_range _)
    intro i hi j hj hij
    rw [List.mem_range] at hi hj
    have h1 : i + 1 < 256 := by omega
    have h2 : j + 1 < 256 := by omega
    rw [Nat.mod_eq_of_lt h1, Nat.mod_eq_of_lt h2] at hij
    omega
  · have hrw : (Color.create_color_map colors).map (fun pr => pr.1) =
        Color.sort colors.dedup := by
      rw [Color.create_color_map, List.map_map]
      exact List.enum_map_snd _
    rw [hrw]
    exact List.sorted_insertionSort qLe colors.dedup
  · intro annotations p hp
    induction annotations with
    | nil => rfl
    | cons an l ih =>
      have h1 := hp an (List.mem_cons_self an l)
      have hco : Annot.colored an
          (lookupColor (Color.create_color_map colors) an.color) p = 0 := by
        simp only [Annot.colored, if_neg h1]
      have hall : ∀ b ∈ l, ¬(b.roi.containsPt p ∧ b.mask p = true) :=
        fun b hb => hp b (List.mem_cons_of_mem an hb)
      have ih2 := ih hall
      simp only [Annot.merge, List.foldl_cons, hco, ne_eq, not_true_eq_false,
        if_neg (by simp : ¬(0 : Nat) ≠ 0)] at ih2 ⊢
      exact ih2

/-- Witness for the amended C9 at a single concrete color. -/
theorem C9_color_map_amended_witness :
    ([(⟨0, 0, 0, 255⟩ : Color)].dedup.length ≤ 255) ∧
    ((∀ col ∈ [(⟨0, 0, 0, 255⟩ : Color)], ∃ v,
        (col, v) ∈ Color.create_color_map [⟨0, 0, 0, 255⟩]) ∧
     (∀ pr ∈ Color.create_color_map [(⟨0, 0, 0, 255⟩ : Color)], 1 ≤ pr.2 ∧ pr.2 ≤ 255) ∧
     ((Color.create_color_map [(⟨0, 0, 0, 255⟩ : Color)]).map (fun pr => pr.2)).Nodup ∧
     ((Color.create_color_map [(⟨0, 0, 0, 255⟩ : Color)]).map (fun pr => pr.1)).Sorted qLe ∧
     (∀ (annotations : List Annot) (p : Point5D),
        (∀ an ∈ annotations, ¬(an.roi.containsPt p ∧ an.mask p = true)) →
        Annot.merge annotations (Color.create_color_map [⟨0, 0, 0, 255⟩]) p = 0)) :=
  ⟨by decide, C9_color_map_amended [⟨0, 0, 0, 255⟩] (by decide)⟩

/-! ## HTTP requests (`webilastik/utility/request.py`) -/

/-- The relevant parts of a `requests` response: whether it is `ok`
(status below 400), its status code, its raw body (bytes as naturals
below 256), and its headers. -/
structure HttpResponse where
  ok : Bool
  status_code : Nat
  content : List Nat
  headers : List (String × String)
deriving DecidableEq, Repr

/-- Python byte-string slicing `content[:n]` for an `int` bound: a
non-negative bound keeps the first `n` bytes; a negative bound drops the
last `|n|` bytes. -/
def pySliceTo (l : List Nat) (n : Int) : List Nat :=
  if 0 ≤ n then l.take n.toNat else l.take (l.length - (-n).toNat)

/-- The error results of `request` (request.py, lines 12-23).  `crashed`
stands for `ErrRequestCrashed`, produced when the session itself raises; the
model takes the session's outcome as input, so only the failure-status error
arises below. -/
inductive RequestError : Type
  | completedAsFailure (status_code : Nat)
  | crashed
deriving DecidableEq, Repr

/-- The Range header value computed by `request` (request.py, lines 37-44). -/
def rangeHeaderValue (offset : Int) (num_bytes : Option Int) : String :=
  if 0 ≤ offset then
    match num_bytes with
    | none => s!"bytes={offset}-"
    | some n => s!"bytes={offset}-" ++ toString (max offset (offset + n - 1))
  else
    s!"bytes={offset}"

/-- `request` (request.py, lines 28-63), applied to the response the session
produced: a non-ok response becomes `ErrRequestCompletedAsFailure`; otherwise
the body — truncated by Python slicing `content[:num_bytes]` when `num_bytes`
is not `None` — is returned with the headers. -/
def request (offset : Int) (num_bytes : Option Int) (response : HttpResponse) :
    Except RequestError (List Nat × List (String × String)) :=
  if response.ok = false then
    Except.error (RequestError.completedAsFailure response.status_code)
  else
    let content :=
      match num_bytes with
      | some n => pySliceTo response.content n
      | none => response.content
    Except.ok (content, response.headers)

/-- Counterexample for C10: with `num_bytes = -1` (an `int` the signature
admits) and a 2-byte ok response, the returned content has length 1, which is
not at most `num_bytes`: Python's negative slicing keeps all but the last
byte instead of truncating to at most `n` bytes. -/
theorem C10_counterexample :
    request 0 (some (-1)) ⟨true, 200, [97, 98], []⟩ = Except.ok ([97], []) ∧
    ¬((1 : Int) ≤ -1) := by
  constructor
  · rfl
  · decide

/-- **C10 (amended).** For every successful `request` call with a
non-negative `num_bytes = n`, the returned content is the first `n` bytes of
the response body: its length is at most `n`. -/
theorem C10_request_truncation_amended (offset : Int) (n : Int) (resp : HttpResponse)
    (hn : 0 ≤ n) (body : List Nat) (headers : List (String × String))
    (hok : request offset (some n) resp = Except.ok (body, headers)) :
    body = resp.content.take n.toNat ∧ body.length ≤ n.toNat ∧ (body.length : Int) ≤ n := by
  rcases hresp : resp.ok with _ | _
  · rw [request, if_pos (by rw [hresp])] at hok
    cases hok
  · rw [request, if_neg (by rw [hresp]; exact fun hcon => Bool.noConfusion hcon)] at hok
    simp only [pySliceTo, if_pos hn, Except.ok.injEq, Prod.mk.injEq] at hok
    obtain ⟨hbody, hhead⟩ := hok
    refine ⟨hbody.symm, ?_, ?_⟩
    · rw [← hbody]; exact List.length_take_le _ _
    · have h1 : body.length ≤ n.toNat := by rw [← hbody]; exact List.length_take_le _ _
      omega

/-- Witness for the amended C10 at a concrete 2-byte response truncated to
one byte. -/
theorem C10_request_truncation_amended_witness :
    ((0 : Int) ≤ 1) ∧
    (request 0 (some 1) ⟨true, 200, [97, 98], []⟩ = Except.ok ([97], [])) ∧
    (([97] : List Nat) = ([97, 98] : List Nat).take (1 : Int).toNat ∧
     ([97] : List Nat).length ≤ (1 : Int).toNat ∧
     ((([97] : List Nat).length : Int) ≤ 1)) :=
  ⟨by decide, by rfl,
   C10_request_truncation_amended 0 1 ⟨true, 200, [97, 98], []⟩ (by decide) [97] [] (by rfl)⟩

/-! ## Process-pool orchestration
(`benchmarks/pixel_classification_webilastik.py`, lines 129-148;
`webilastik/server/server.py`, lines 87-121) -/

/-- `batch_size = math.ceil(len(all_slices) / args.num_workers)` (benchmark
line 144): the ceiling division. -/
def batchSize (n w : Nat) : Nat := (n + w - 1) / w

/-- The Python `range(0, stop, step)` for a positive step: the multiples of
`step` below `stop`. -/
def pyRange (stop step : Nat) : List Nat :=
  (List.range ((stop + step - 1) / step)).map (fun i => i * step)

/-- `batches = [(classifier, all_slices[start : start + batch_size]) for
start in range(0, len(all_slices), batch_size)]` (benchmark line 145),
keeping the slice lists (every batch is shipped with the same classifier). -/
def mkBatches (all_slices : List τ) (w : Nat) : List (List τ) :=
  let batch_size := batchSize all_slices.length w
  (pyRange all_slices.length batch_size).map
    (fun s => (all_slices.drop s).take batch_size)

/-- `do_worker_predict` (server.py, lines 87-93) and the benchmark's
process-pool `do_predict` (lines 131-140): one worker maps the classifier's
predict over its batch sequentially. -/
def do_worker_predict (predict : τ → ρ) (batch : List τ) : List ρ := batch.map predict

/-- The coordinator loop (benchmark lines 146-148): `executor.map` yields the
workers' result batches in batch order and the results are merged serially in
that order. -/
def processPoolResults (predict : τ → ρ) (all_slices : List τ) (w : Nat) : List ρ :=
  ((mkBatches all_slices w).map (do_worker_predict predict)).flatten

/-- Five concrete tiles. -/
def c5Tiles : List Interval5D :=
  (List.range 5).map (fun i => ⟨⟨(i : Int), 0, 0, 0, 0⟩, ⟨(i : Int) + 1, 1, 1, 1, 1⟩⟩)

/-- Counterexample for C5: with 5 tiles and `worker_count = 4` the
process-pool orchestrator builds batches of size `ceil(5/4) = 2`, producing
only 3 contiguous batches — not `worker_count` batches. -/
theorem C5_counterexample :
    (mkBatches c5Tiles 4).length = 3 ∧ (3 : Nat) ≠ 4 := by
  constructor
  · decide
  · decide

/-- The chunks of `l` starting at `s, s + bs, ...` (`k` of them) flatten to
the `k * bs` elements of `l` from position `s`. -/
theorem flatten_chunks (bs : Nat) (l : List τ) :
    ∀ (k s : Nat),
      ((List.range k).map (fun i => (l.drop (s + i * bs)).take bs)).flatten =
        (l.drop s).take (k * bs) := by
  intro k
  induction k with
  | zero => intro s; simp
  | succ k ih =>
    intro s
    rw [List.range_succ_eq_map, List.map_cons, List.flatten_cons, List.map_map]
    have hcomp :
        ((fun i => (l.drop (s + i * bs)).take bs) ∘ Nat.succ) =
          (fun i => (l.drop ((s + bs) + i * bs)).take bs) := by
      funext i
      simp only [Function.comp_apply]
      congr 2
      simp only [Nat.succ_eq_add_one]
      ring
    rw [hcomp, ih (s + bs)]
    have hdrop : l.drop (s + bs) = (l.drop s).drop bs := by
      rw [List.drop_drop]
    have hk : (k + 1) * bs = bs + k * bs := by ring
    rw [hdrop, hk, List.take_add]
    simp only [Nat.zero_mul, Nat.add_zero]

/-- Ceiling division: `n ≤ ((n + m - 1) / m) * m` for positive `m`. -/
theorem ceil_div_mul_ge (n m : Nat) (hm : 1 ≤ m) : n ≤ ((n + m - 1) / m) * m := by
  have h1 := Nat.div_add_mod (n + m - 1) m
  have h2 := Nat.mod_lt (n + m - 1) (show 0 < m by omega)
  have h3 : ((n + m - 1) / m) * m = m * ((n + m - 1) / m) := Nat.mul_comm _ _
  omega

/-- **C5 (amended).** The benchmark's process-pool orchestration partitions
the tile list into at most `worker_count` contiguous batches of size
`ceil(n / worker_count)` (the last possibly smaller), whose concatenation in
batch order is exactly the tile list; each worker maps predict over its batch
sequentially, and merging the returned batches serially in batch order yields
exactly the sequential prediction of every tile in order. -/
theorem C5_process_pool_amended {τ ρ : Type} (all_slices : List τ) (w : Nat)
    (predict : τ → ρ) (hn : 1 ≤ all_slices.length) (hw : 1 ≤ w) :
    (mkBatches all_slices w).length ≤ w ∧
    (∀ b ∈ mkBatches all_slices w, b.length ≤ batchSize all_slices.length w) ∧
    (mkBatches all_slices w).flatten = all_slices ∧
    processPoolResults predict all_slices w = all_slices.map predict := by
  set n := all_slices.length with hn_def
  set bs := batchSize n w with hbs_def
  have hbs : 1 ≤ bs := by
    rw [hbs_def, batchSize]
    have : w ≤ n + w - 1 := by omega
    calc 1 = w / w := by rw [Nat.div_self (by omega)]
      _ ≤ (n + w - 1) / w := Nat.div_le_div_right this
  have hnbs : n ≤ bs * w := by
    have := ceil_div_mul_ge n w hw
    rw [← batchSize, ← hbs_def] at this
    omega
  have hflat : (mkBatches all_slices w).flatten = all_slices := by
    rw [mkBatches]
    simp only [← hn_def, ← hbs_def, pyRange]
    rw [List.map_map]
    have hcomp :
        ((fun s => (all_slices.drop s).take bs) ∘ fun i => i * bs) =
          (fun i => (all_slices.drop (0 + i * bs)).take bs) := by
      funext i; simp
    rw [hcomp, flatten_chunks bs all_slices ((n + bs - 1) / bs) 0, List.drop_zero]
    have hcount : n ≤ ((n + bs - 1) / bs) * bs := ceil_div_mul_ge n bs hbs
    exact List.take_of_length_le (by omega)
  refine ⟨?_, ?_, hflat, ?_⟩
  · rw [mkBatches]
    simp only [← hn_def, ← hbs_def, pyRange, List.length_map, List.length_range]
    by_contra hcon
    push_neg at hcon
    have h2 : w + 1 ≤ (n + bs - 1) / bs := hcon
    have h3 : (w + 1) * bs ≤ ((n + bs - 1) / bs) * bs :=
      Nat.mul_le_mul_right bs h2
    have h4 : ((n + bs - 1) / bs) * bs ≤ n + bs - 1 := Nat.div_mul_le_self _ _
    have h5 : (w + 1) * bs = w * bs + bs := by rw [Nat.add_mul, Nat.one_mul]
    have h6 : bs * w = w * bs := Nat.mul_comm bs w
    omega
  · intro b hb
    rw [mkBatches] at hb
    simp only [← hn_def, ← hbs_def, List.mem_map] at hb
    rcases hb with ⟨s, _, rfl⟩
    exact List.length_take_le _ _
  · rw [processPoolResults]
    have h := (List.map_flatten predict (mkBatches all_slices w)).symm
    rw [hflat] at h
    exact h

/-- Witness for the amended C5 at the five concrete tiles and four workers. -/
theorem C5_process_pool_amended_witness :
    (1 ≤ c5Tiles.length) ∧ (1 ≤ 4) ∧
    ((mkBatches c5Tiles 4).length ≤ 4 ∧
     (∀ b ∈ mkBatches c5Tiles 4, b.length ≤ batchSize c5Tiles.length 4) ∧
     (mkBatches c5Tiles 4).flatten = c5Tiles ∧
     processPoolResults id c5Tiles 4 = c5Tiles.map id) :=
  ⟨by decide, by decide, C5_process_pool_amended c5Tiles 4 id (by decide) (by decide)⟩

/-! ## Neuroglancer raw-chunk output (`webilastik/server/server.py`,
lines 148-161) -/

/-- `as_uint8()`: one unsigned 8-bit scalar per element (value reduced into
0..255). -/
def asUint8 (v : Nat) : Nat := v % 256

/-- The body built by `ng_predict` (server.py, line 159):
`predictions.as_uint8().raw("xyzc").tobytes("F")` — the prediction block's
values in Fortran order over the axes `x, y, z, channel`: x varies fastest,
the channel axis slowest; one byte per voxel per channel and no header. -/
def ngPredictBody (X Y Z C : Nat) (val : Nat → Nat → Nat → Nat → Nat) : List Nat :=
  (List.range C).flatMap fun c =>
    (List.range Z).flatMap fun z =>
      (List.range Y).flatMap fun y =>
        (List.range X).map fun x => asUint8 (val x y z c)

/-- Flattening constant-length lists indexed by `range` has length
`n * k`. -/
theorem length_flatMap_const {α : Type} (f : Nat → List α) (k : Nat) :
    ∀ n : Nat, (∀ j, j < n → (f j).length = k) →
      ((List.range n).flatMap f).length = n * k := by
  intro n
  induction n with
  | zero => intro _; simp
  | succ n ih =>
    intro hf
    rw [List.range_succ, List.flatMap_append, List.length_append,
      ih (fun j hj => hf j (by omega))]
    simp only [List.flatMap_cons, List.flatMap_nil, List.append_nil]
    rw [hf n (by omega), Nat.succ_mul]

/-- Indexing into the flattening of constant-length lists: position
`k * j + i` holds element `i` of block `j`. -/
theorem getElem?_flatMap_const {α : Type} (f : Nat → List α) (k : Nat) :
    ∀ n j i : Nat, (∀ m, m < n → (f m).length = k) → j < n → i < k →
      ((List.range n).flatMap f)[k * j + i]? = (f j)[i]? := by
  intro n
  induction n with
  | zero => intro j i _ hj; omega
  | succ n ih =>
    intro j i hf hj hi
    rw [List.range_succ, List.flatMap_append]
    simp only [List.flatMap_cons, List.flatMap_nil, List.append_nil]
    have hlen : ((List.range n).flatMap f).length = n * k :=
      length_flatMap_const f k n (fun m hm => hf m (by omega))
    by_cases hjn : j < n
    · have hidx : k * j + i < ((List.range n).flatMap f).length := by
        rw [hlen]
        calc k * j + i < k * j + k := by omega
          _ = k * (j + 1) := by ring
          _ ≤ k * n := Nat.mul_le_mul_left k (by omega)
          _ = n * k := Nat.mul_comm k n
      rw [List.getElem?_append_left hidx]
      exact ih j i (fun m hm => hf m (by omega)) hjn hi
    · have hjeq : j = n := by omega
      subst hjeq
      have hidx : ((List.range j).flatMap f).length ≤ k * j + i := by
        rw [hlen]
        calc j * k = k * j := Nat.mul_comm j k
          _ ≤ k * j + i := by omega
      rw [List.getElem?_append_right hidx, hlen]
      congr 1
      have : j * k = k * j := Nat.mul_comm j k
      omega

/-- **C7.** The binary chunk served by `ng_predict` for a sub-region of
extents X, Y, Z with C channels holds exactly `X * Y * Z * C` bytes — one
8-bit unsigned scalar per voxel per channel, no header, no padding — laid out
in `[x, y, z, channel]` order with x varying fastest: the byte at position
`x + X*y + X*Y*z + X*Y*Z*c` is the uint8 value of the prediction at
`(x, y, z, c)`. -/
theorem C7_ng_predict_byte_layout (X Y Z C : Nat) (val : Nat → Nat → Nat → Nat → Nat) :
    (ngPredictBody X Y Z C val).length = X * Y * Z * C ∧
    (∀ b ∈ ngPredictBody X Y Z C val, b < 256) ∧
    (∀ x y z c, x < X → y < Y → z < Z → c < C →
      (ngPredictBody X Y Z C val)[x + X * y + X * Y * z + X * Y * Z * c]? =
        some (asUint8 (val x y z c))) := by
  have hlenY : ∀ z c, ((List.range Y).flatMap fun y =>
      (List.range X).map fun x => asUint8 (val x y z c)).length = Y * X := by
    intro z c
    exact length_flatMap_const _ X Y (fun j _ => by simp)
  have hlenZ : ∀ c, ((List.range Z).flatMap fun z =>
      (List.range Y).flatMap fun y =>
        (List.range X).map fun x => asUint8 (val x y z c)).length = Z * (Y * X) := by
    intro c
    exact length_flatMap_const _ (Y * X) Z (fun j _ => hlenY j c)
  refine ⟨?_, ?_, ?_⟩
  · have := length_flatMap_const
      (fun c => (List.range Z).flatMap fun z =>
        (List.range Y).flatMap fun y =>
          (List.range X).map fun x => asUint8 (val x y z c))
      (Z * (Y * X)) C (fun j _ => hlenZ j)
    rw [ngPredictBody, this]
    ring
  · intro b hb
    simp only [ngPredictBody, List.mem_flatMap, List.mem_map, List.mem_range] at hb
    obtain ⟨c, _, z, _, y, _, x, _, rfl⟩ := hb
    exact Nat.mod_lt _ (by omega)
  · intro x y z c hx hy hz hc
    have hidx : x + X * y + X * Y * z + X * Y * Z * c =
        (Z * (Y * X)) * c + ((Y * X) * z + (X * y + x)) := by ring
    rw [ngPredictBody, hidx]
    rw [getElem?_flatMap_const _ (Z * (Y * X)) C c ((Y * X) * z + (X * y + x))
      (fun m _ => hlenZ m) hc
      (by calc (Y * X) * z + (X * y + x) < (Y * X) * z + (X * y + X) := by omega
            _ = (Y * X) * z + X * (y + 1) := by ring
            _ ≤ (Y * X) * z + X * Y := by
                have := Nat.mul_le_mul_left X (show y + 1 ≤ Y by omega)
                omega
            _ = (Y * X) * (z + 1) := by ring
            _ ≤ (Y * X) * Z := Nat.mul_le_mul_left (Y * X) (by omega)
            _ = Z * (Y * X) := Nat.mul_comm _ _)]
    rw [getElem?_flatMap_const _ (Y * X) Z z (X * y + x)
      (fun m _ => hlenY m c) hz
      (by calc X * y + x < X * y + X := by omega
            _ = X * (y + 1) := by ring
            _ ≤ X * Y := Nat.mul_le_mul_left X (by omega)
            _ = Y * X := Nat.mul_comm _ _)]
    rw [getElem?_flatMap_const _ X Y y x (fun m _ => by simp) hy hx]
    simp [List.getElem?_map, List.getElem?_range hx]

/-- Witness for C7 at a concrete 1-voxel single-channel block with an
out-of-range scalar reduced to uint8. -/
theorem C7_ng_predict_byte_layout_witness :
    ((0 : Nat) < 1) ∧
    ((ngPredictBody 1 1 1 1 (fun _ _ _ _ => 300)).length = 1 * 1 * 1 * 1 ∧
     (ngPredictBody 1 1 1 1 (fun _ _ _ _ => 300))[0 + 1 * 0 + 1 * 1 * 0 + 1 * 1 * 1 * 0]? =
       some (asUint8 300)) :=
  ⟨by decide,
   (C7_ng_predict_byte_layout 1 1 1 1 (fun _ _ _ _ => 300)).1,
   (C7_ng_predict_byte_layout 1 1 1 1 (fun _ _ _ _ => 300)).2.2 0 0 0 0
     (by decide) (by decide) (by decide) (by decide)⟩
